import Mathlib

/-!
Verification development for the ironflow typed-port data model.

The repository ships documentation (README, notebooks) describing the
`ironflow.model.dtypes` typing rules, the batching semantics, the
ontology-driven recommendation layer, the `DataNode` update behaviour, the
custom-node registration filter and the JSON session persistence.  The Python
modules implementing these (`ironflow/model/dtypes.py`, the `BatchingNode`
hierarchy, `node_tools`, the `HasSession` driver) are not part of the source
tree given here, so each is modelled from the spec's words and the claims are
settled against those models.
-/

namespace Ironflow

/-- Modelled from the spec: the classes a port's dtype may name as valid
(`each port has one or more classes whose instances are valid input`).  The
README mentions `float` and `list[float]` so the grammar allows list classes
of arbitrary element class. -/
inductive PyClass where
  | pfloat
  | pint
  | pbool
  | pstr
  | plist (elem : PyClass)
deriving DecidableEq, Repr

/-- Nesting depth of a class: `list[...]` is one deeper than its element. -/
def PyClass.depth : PyClass → Nat
  | .plist c => c.depth + 1
  | _ => 0

/-- Modelled from the spec: runtime scalar values.  The numeric payload of a
float is abstracted to an integer token; no claim computes float arithmetic. -/
inductive PyScalar where
  | sfloat (tok : Int)
  | sint (n : Int)
  | sbool (b : Bool)
  | sstr (s : String)
deriving DecidableEq, Repr

/-- Modelled from the spec: a runtime value is a single value or a 1D list
(`Only single values and 1D lists are supported right now`). -/
inductive PyVal where
  | scalar (s : PyScalar)
  | list1d (xs : List PyScalar)
deriving DecidableEq, Repr

/-- Whether a scalar is an instance of a class. -/
def PyScalar.instanceOf : PyScalar → PyClass → Bool
  | .sfloat _, .pfloat => true
  | .sint _, .pint => true
  | .sbool _, .pbool => true
  | .sstr _, .pstr => true
  | _, _ => false

/-- Whether a value is an instance of a class: 1D lists are instances of the
corresponding `list[...]` classes. -/
def PyVal.instanceOf : PyVal → PyClass → Bool
  | .scalar s, c => s.instanceOf c
  | .list1d xs, .plist c => xs.all fun s => s.instanceOf c
  | .list1d _, _ => false

/-- Modelled from the spec: a port dtype from `ironflow.model.dtypes` — one or
more valid classes, whether `None` is an acceptable value, and the port's
batched flag. -/
structure DType where
  valid_classes : List PyClass
  allow_none : Bool
  batched : Bool
deriving DecidableEq, Repr

/-- Boolean subset test on class lists viewed as sets. -/
def classSubset (a b : List PyClass) : Bool :=
  a.all fun c => decide (c ∈ b)

/-- Boolean strict-subset test on class lists viewed as sets (subset and not
superset), the reading the README's phrase `strict subset` would demand. -/
def classStrictSubset (a b : List PyClass) : Bool :=
  classSubset a b && !(classSubset b a)

/-- Modelled from the spec: the classes a port effectively carries once its
batched flag is taken into account.  Batching `changes the expected input for
the port from a single value to a list of values`, so a batched port of type
`float` trades in `list[float]`. -/
def DType.effective_classes (d : DType) : List PyClass :=
  if d.batched then d.valid_classes.map .plist else d.valid_classes

/-- Modelled from the spec: connection type-checking from the README's data
typing section.  `An output port can be connected to an input port as long as
its valid classes are a [..] subset of the input port's valid classes, and as
long as the output port won't allow the the input port to be surprised by a
None value.`  The subset here is the plain (non-strict) one: the README's own
batching examples (`a batched output port of type float can be fed to a
batched input port of type float`) require ports with equal class sets to be
connectable, so the word `strict` in the data-typing paragraph cannot be meant
literally. -/
def valid_connection (out inp : DType) : Bool :=
  classSubset out.effective_classes inp.effective_classes
    && (!out.allow_none || inp.allow_none)

namespace dtypes

/-- The `Float` dtype of `ironflow.model.dtypes`, unbatched and not
accepting `None`. -/
def FloatD : DType := ⟨[.pfloat], false, false⟩

/-- The `Integer` dtype. -/
def IntegerD : DType := ⟨[.pint], false, false⟩

/-- A `list[float]` dtype. -/
def ListFloatD : DType := ⟨[.plist .pfloat], false, false⟩

end dtypes

/-- Set a dtype's batched flag. -/
def DType.withBatched (d : DType) (b : Bool) : DType :=
  { d with batched := b }

/-! ## Graph states and connection management (claim C2) -/

/-- Modelled from the spec: the in-memory graph the user edits — output port
dtypes, input port dtypes, and the established connections (output index,
input index).  Nodes contribute their ports to the two lists; node placement
only appends ports. -/
structure Graph where
  outs : List DType
  ins : List DType
  conns : List (Nat × Nat)
deriving DecidableEq, Repr

/-- A connection is valid in a graph when both endpoints exist and the dtype
check `valid_connection` passes. -/
def Graph.conn_valid (g : Graph) (c : Nat × Nat) : Bool :=
  match g.outs[c.1]?, g.ins[c.2]? with
  | some o, some i => valid_connection o i
  | _, _ => false

/-- Modelled from the spec: `connections perform type-checking to ensure
validity prior to establishing a connection` — an attempt either establishes
a valid connection or leaves the graph unchanged. -/
def Graph.tryConnect (g : Graph) (i j : Nat) : Graph :=
  if g.conn_valid (i, j) then { g with conns := (i, j) :: g.conns } else g

/-- The empty editing session. -/
def Graph.empty : Graph := ⟨[], [], []⟩

/-- Modelled from the spec: the connection-management operations the UI
offers — placing a node (adding its ports), attempting a connection, and
removing a connection. -/
inductive Step : Graph → Graph → Prop
  | addOutPort (g : Graph) (d : DType) : Step g { g with outs := g.outs ++ [d] }
  | addInPort (g : Graph) (d : DType) : Step g { g with ins := g.ins ++ [d] }
  | connectAttempt (g : Graph) (i j : Nat) : Step g (g.tryConnect i j)
  | removeConn (g : Graph) (c : Nat × Nat) :
      Step g { g with conns := g.conns.erase c }

/-- Graph states reachable from an empty session. -/
def Reachable (g : Graph) : Prop :=
  Relation.ReflTransGen Step Graph.empty g

/-- Every established connection passes the type check. -/
def Graph.wellTyped (g : Graph) : Prop :=
  ∀ c ∈ g.conns, g.conn_valid c = true

/-! ## Batched node execution (claims C4, C10) -/

/-- Modelled from the spec: the value at one input port of a `BatchingNode` —
a single value when unbatched, a 1D list when batched (`Only single values
and 1D lists are supported right now`). -/
inductive BVal (α : Type) where
  | single (a : α)
  | batch (xs : List α)
deriving DecidableEq, Repr

/-- The lengths of the batched input lists. -/
def batchLengths {α : Type} (inps : List (BVal α)) : List Nat :=
  inps.filterMap fun v =>
    match v with
    | .single _ => none
    | .batch xs => some xs.length

/-- All batch lengths agree (vacuously true when nothing is batched). -/
def allSameLength (ns : List Nat) : Bool :=
  match ns with
  | [] => true
  | n :: rest => rest.all fun m => m == n

/-- The scalar inputs fed to the node function for batch element `i`:
unbatched ports contribute their single value, batched ports their `i`-th
element. -/
def sliceInputs {α : Type} [Inhabited α] (inps : List (BVal α)) (i : Nat) :
    List α :=
  inps.map fun v =>
    match v with
    | .single a => a
    | .batch xs => xs.getD i default

/-- Modelled from the spec: `The node operation is then iterated over the
entire list` — one node-function application per batch element, in order. -/
def runBatched {α β : Type} [Inhabited α] (f : List α → List β)
    (inps : List (BVal α)) (n : Nat) : List (List β) :=
  (List.range n).map fun i => f (sliceInputs inps i)

/-- What an output port holds after a batched run: its column of the
per-element results (`output values are correspondingly also turned to a
list`). -/
def outputColumn {β : Type} [Inhabited β] (rows : List (List β)) (j : Nat) :
    List β :=
  rows.map fun r => r.getD j default

/-- Modelled from the spec: a `BatchingNode` update — defined only when all
batched inputs have the same length (`as long as all batches are of the same
length`); with no batched input the node function runs exactly once. -/
def runNode {α β : Type} [Inhabited α] (f : List α → List β)
    (inps : List (BVal α)) : Option (List (List β)) :=
  match batchLengths inps with
  | [] => some [f (sliceInputs inps 0)]
  | n :: rest =>
      if rest.all (fun m => m == n) then some (runBatched f inps n) else none

/-- A node function used to instantiate the batching theorems. -/
def sumNode (l : List Nat) : List Nat := [l.foldr (· + ·) 0]

/-! ## Port value validity and coloring (claims C6, C9) -/

/-- Whether a current value (possibly `None`) is valid for a dtype: `None`
requires `allow_none`; a batched port expects a 1D list all of whose elements
instantiate a valid class; an unbatched port expects an instance of a valid
class. -/
def DType.valid_value (d : DType) : Option PyVal → Bool
  | none => d.allow_none
  | some v =>
      if d.batched then
        match v with
        | .list1d xs =>
            xs.all fun s => d.valid_classes.any fun c => s.instanceOf c
        | .scalar _ => false
      else d.valid_classes.any fun c => v.instanceOf c

/-- Whether the ontological types provided cover every requirement. -/
def satisfiesReqs (provided reqs : List String) : Bool :=
  reqs.all fun r => decide (r ∈ provided)

/-- Modelled from the spec: an IO port as the UI sees it — declared dtype,
the ontological requirements reaching it (empty when not otyped), the
ontological types its current value provides, and the current value. -/
structure Port where
  dtype : DType
  otype_reqs : List String
  otype_provided : List String
  value : Option PyVal
deriving DecidableEq, Repr

/-- Port status colors. -/
inductive Color where
  | green
  | red
deriving DecidableEq, Repr

/-- Whether the port's current value is valid for its declared and (where
present) ontological type. -/
def Port.value_ok (p : Port) : Bool :=
  p.dtype.valid_value p.value && satisfiesReqs p.otype_provided p.otype_reqs

/-- Modelled from the spec: `the validity of the current value for each IO
port is indicated by the port color: green for valid, red for invalid`. -/
def Port.color (p : Port) : Color :=
  if p.value_ok then .green else .red

/-- Modelled from the spec: a `DataNode` input port with its current value. -/
structure DPort where
  dtype : DType
  value : Option PyVal
deriving DecidableEq, Repr

/-- All input ports report valid input values. -/
def allInputsValid (inps : List DPort) : Bool :=
  inps.all fun p => p.dtype.valid_value p.value

/-- Modelled from the spec: the `DataNode` update — such nodes `automatically
update or clear (set to None) their output ports based on whether or not all
of their input ports report valid input values`, computing outputs with the
child's `node_function`. -/
def dataNodeUpdate (node_function : List DPort → List PyVal)
    (inps : List DPort) (nOut : Nat) : List (Option PyVal) :=
  if allInputsValid inps then (node_function inps).map some
  else List.replicate nOut none

/-- A node function used to instantiate the `DataNode` theorem. -/
def constIntNF (_ : List DPort) : List PyVal := [.scalar (.sint 1)]

/-! ## Custom node registration (claim C8) -/

/-- Modelled from the spec: what registration observes of a Python class —
its name and whether it inherits from `Node`. -/
structure NodeClass where
  name : String
  inherits_node : Bool
deriving DecidableEq, Repr

/-- The `str.endswith` test on class names, computed on character lists. -/
def nameEndsWith (s suffix : String) : Bool :=
  suffix.data.isSuffixOf s.data

/-- Modelled from the spec: registering nodes from a python module or .py
file keeps exactly the classes that inherit from `Node` and whose class name
ends in `_Node`. -/
def register_from_source (classes : List NodeClass) : List NodeClass :=
  classes.filter fun c => c.inherits_node && nameEndsWith c.name "_Node"

/-- Modelled from the spec: registering from an explicit list of node classes
applies no name filter. -/
def register_from_list (classes : List NodeClass) : List NodeClass :=
  classes

/-! ## Session persistence (claim C7) -/

/-- A JSON document. -/
inductive Json where
  | null
  | num (n : Int)
  | str (s : String)
  | arr (xs : List Json)
  | obj (fields : List (String × Json))

/-- Serialize a scalar value to JSON. -/
def encodeScalar : PyScalar → Json
  | .sfloat t => .obj [("float", .num t)]
  | .sint n => .obj [("int", .num n)]
  | .sbool b => .obj [("bool", .num (if b then 1 else 0))]
  | .sstr s => .str s

/-- Parse a scalar value back from JSON. -/
def decodeScalar : Json → Option PyScalar
  | .obj [("float", .num t)] => some (.sfloat t)
  | .obj [("int", .num n)] => some (.sint n)
  | .obj [("bool", .num b)] =>
      if b == 1 then some (.sbool true)
      else if b == 0 then some (.sbool false) else none
  | .str s => some (.sstr s)
  | _ => none

def decodeScalarList : List Json → Option (List PyScalar)
  | [] => some []
  | j :: rest =>
      match decodeScalar j, decodeScalarList rest with
      | some s, some ss => some (s :: ss)
      | _, _ => none

/-- Serialize a port value. -/
def encodeVal : PyVal → Json
  | .scalar s => .obj [("scalar", encodeScalar s)]
  | .list1d xs => .arr (xs.map encodeScalar)

def decodeVal : Json → Option PyVal
  | .obj [("scalar", j)] => (decodeScalar j).map .scalar
  | .arr js => (decodeScalarList js).map .list1d
  | _ => none

/-- Serialize a possibly-unset port value. -/
def encodeOptVal : Option PyVal → Json
  | none => .null
  | some v => encodeVal v

def decodeOptVal : Json → Option (Option PyVal)
  | .null => some none
  | j => (decodeVal j).map some

def decodeOptValList : List Json → Option (List (Option PyVal))
  | [] => some []
  | j :: rest =>
      match decodeOptVal j, decodeOptValList rest with
      | some v, some vs => some (v :: vs)
      | _, _ => none

/-- Modelled from the spec: what a saved session records per node — its
title, its canvas position (the layout), and its port values. -/
structure SessionNode where
  title : String
  x : Int
  y : Int
  values : List (Option PyVal)
deriving DecidableEq, Repr

/-- Modelled from the spec: a session is the graph being edited — its nodes
and its connections. -/
structure Session where
  nodes : List SessionNode
  conns : List (Nat × Nat)
deriving DecidableEq, Repr

def encodeNode (n : SessionNode) : Json :=
  .obj [("title", .str n.title), ("x", .num n.x), ("y", .num n.y),
    ("values", .arr (n.values.map encodeOptVal))]

def decodeNode : Json → Option SessionNode
  | .obj [("title", .str t), ("x", .num x), ("y", .num y),
      ("values", .arr js)] =>
      (decodeOptValList js).map fun vs => ⟨t, x, y, vs⟩
  | _ => none

def decodeNodeList : List Json → Option (List SessionNode)
  | [] => some []
  | j :: rest =>
      match decodeNode j, decodeNodeList rest with
      | some n, some ns => some (n :: ns)
      | _, _ => none

def encodeConn (c : Nat × Nat) : Json :=
  .arr [.num (Int.ofNat c.1), .num (Int.ofNat c.2)]

def decodeConn : Json → Option (Nat × Nat)
  | .arr [.num a, .num b] => some (a.toNat, b.toNat)
  | _ => none

def decodeConnList : List Json → Option (List (Nat × Nat))
  | [] => some []
  | j :: rest =>
      match decodeConn j, decodeConnList rest with
      | some c, some cs => some (c :: cs)
      | _, _ => none

/-- Modelled from the spec: saving writes a JSON document persisting the
graph layout and all node/port values. -/
def saveSession (s : Session) : Json :=
  .obj [("nodes", .arr (s.nodes.map encodeNode)),
    ("connections", .arr (s.conns.map encodeConn))]

/-- Parse a saved session document. -/
def loadSession : Json → Option Session
  | .obj [("nodes", .arr njs), ("connections", .arr cjs)] =>
      match decodeNodeList njs, decodeConnList cjs with
      | some ns, some cs => some ⟨ns, cs⟩
      | _, _ => none
  | _ => none

def emptySession : Session := ⟨[], []⟩

/-- Modelled from the spec: `The gui takes a session title at instantiation,
and will automatically try to load any saved session (a JSON file) with the
same name present.`  The store maps titles to saved JSON documents. -/
def gui_init (store : List (String × Json)) (title : String) :
    Option Session :=
  match store.lookup title with
  | some j => loadSession j
  | none => some emptySession

/-! ## Ontology-driven recommendations (claim C5) -/

/-- Modelled from the spec: a node as the ontology reasoner sees it — the
ontological types its output provides and the requirements its own use of
upstream data imposes (`the requirements of the Murnaghan job to be
calculated on a bulk structure get propagated upstream`). -/
structure ONode where
  provides : List String
  demands : List String
deriving DecidableEq, Repr

/-- Modelled from the spec: the node graph the reasoner walks; an edge
`(u, v)` says node `v` consumes node `u`'s output. -/
structure OGraph where
  nodes : List ONode
  edges : List (Nat × Nat)
deriving DecidableEq, Repr

/-- Fueled reachability along consumer edges. -/
def reachesFuel (edges : List (Nat × Nat)) : Nat → Nat → Nat → Bool
  | 0, a, b => a == b
  | fuel + 1, a, b =>
      a == b || edges.any fun e => e.1 == a && reachesFuel edges fuel e.2 b

/-- Node `b` is node `a` or one of its transitive downstream consumers. -/
def OGraph.downstream (g : OGraph) (a b : Nat) : Bool :=
  reachesFuel g.edges g.edges.length a b

/-- The fallback node for out-of-range lookups. -/
def ONode.idle : ONode := ⟨[], []⟩

/-- Modelled from the spec: the ontological requirements reaching node `a` —
the demands of `a` and of every transitive downstream consumer of `a`. -/
def OGraph.requirements (g : OGraph) (a : Nat) : List String :=
  (List.range g.nodes.length).foldr
    (fun b acc =>
      if g.downstream a b then (g.nodes.getD b ONode.idle).demands ++ acc
      else acc)
    []

/-- Modelled from the spec: the recommended sources for (an input port of)
node `a`: the nodes whose output provides every requirement reaching `a`. -/
def OGraph.recommended (g : OGraph) (a : Nat) : List Nat :=
  (List.range g.nodes.length).filter fun s =>
    satisfiesReqs (g.nodes.getD s ONode.idle).provides (g.requirements a)

/-- Establish a connection in the reasoner's graph. -/
def OGraph.addEdge (g : OGraph) (e : Nat × Nat) : OGraph :=
  { g with edges := e :: g.edges }

/-- Remove a connection from the reasoner's graph. -/
def OGraph.removeEdge (g : OGraph) (e : Nat × Nat) : OGraph :=
  { g with edges := g.edges.erase e }

/-- Modelled from the spec: an otyped port shows red when no source can
satisfy the transitive requirements reaching it. -/
def OGraph.portColor (g : OGraph) (a : Nat) : Color :=
  if (g.recommended a).isEmpty then .red else .green

/-! ## Theorems -/

theorem classSubset_iff (a b : List PyClass) :
    classSubset a b = true ↔ ∀ c ∈ a, c ∈ b := by
  simp [classSubset]

theorem exists_depth_max (cs : List PyClass) (h : cs ≠ []) :
    ∃ c ∈ cs, ∀ c' ∈ cs, PyClass.depth c' ≤ PyClass.depth c := by
  induction cs with
  | nil => exact absurd rfl h
  | cons a t ih =>
    cases t with
    | nil =>
      refine ⟨a, List.mem_cons_self _ _, ?_⟩
      intro c' hc'
      rcases List.mem_cons.mp hc' with rfl | hc'
      · exact le_refl _
      · simp at hc'
    | cons b u =>
      obtain ⟨c, hc, hmax⟩ := ih (by simp)
      by_cases hd : PyClass.depth a ≤ PyClass.depth c
      · refine ⟨c, List.mem_cons_of_mem _ hc, ?_⟩
        intro c' hc'
        rcases List.mem_cons.mp hc' with rfl | hc'
        · exact hd
        · exact hmax c' hc'
      · refine ⟨a, List.mem_cons_self _ _, ?_⟩
        intro c' hc'
        rcases List.mem_cons.mp hc' with rfl | hc'
        · exact le_refl _
        · exact le_trans (hmax c' hc') (le_of_not_le hd)

theorem exists_depth_min (cs : List PyClass) (h : cs ≠ []) :
    ∃ c ∈ cs, ∀ c' ∈ cs, PyClass.depth c ≤ PyClass.depth c' := by
  induction cs with
  | nil => exact absurd rfl h
  | cons a t ih =>
    cases t with
    | nil =>
      refine ⟨a, List.mem_cons_self _ _, ?_⟩
      intro c' hc'
      rcases List.mem_cons.mp hc' with rfl | hc'
      · exact le_refl _
      · simp at hc'
    | cons b u =>
      obtain ⟨c, hc, hmin⟩ := ih (by simp)
      by_cases hd : PyClass.depth c ≤ PyClass.depth a
      · refine ⟨c, List.mem_cons_of_mem _ hc, ?_⟩
        intro c' hc'
        rcases List.mem_cons.mp hc' with rfl | hc'
        · exact hd
        · exact hmin c' hc'
      · refine ⟨a, List.mem_cons_self _ _, ?_⟩
        intro c' hc'
        rcases List.mem_cons.mp hc' with rfl | hc'
        · exact le_refl _
        · exact le_trans (le_of_not_le hd) (hmin c' hc')

/-- Mapping `list[...]` over a nonempty class set never lands inside the set
itself: the image contains a class strictly deeper than the set's deepest. -/
theorem not_classSubset_map_plist (cs : List PyClass) (h : cs ≠ []) :
    classSubset (cs.map .plist) cs = false := by
  by_contra hcon
  have hsub : ∀ c ∈ cs.map PyClass.plist, c ∈ cs :=
    (classSubset_iff _ _).mp (by
      cases hv : classSubset (cs.map .plist) cs
      · exact absurd hv hcon
      · rfl)
  obtain ⟨c, hc, hmax⟩ := exists_depth_max cs h
  have hmem : PyClass.plist c ∈ cs := hsub _ (List.mem_map_of_mem _ hc)
  have := hmax _ hmem
  simp [PyClass.depth] at this

/-- The reverse inclusion also fails: a nonempty class set is never contained
in its own `list[...]` image. -/
theorem not_classSubset_into_map_plist (cs : List PyClass) (h : cs ≠ []) :
    classSubset cs (cs.map .plist) = false := by
  by_contra hcon
  have hsub : ∀ c ∈ cs, c ∈ cs.map PyClass.plist :=
    (classSubset_iff _ _).mp (by
      cases hv : classSubset cs (cs.map .plist)
      · exact absurd hv hcon
      · rfl)
  obtain ⟨c, hc, hmin⟩ := exists_depth_min cs h
  obtain ⟨c', hc', rfl⟩ := List.mem_map.mp (hsub _ hc)
  have := hmin _ hc'
  simp [PyClass.depth] at this

/-- C1 counterexample: a `float` output connected to a `float` input is
accepted by the modelled type check (and must be, by the README's own batching
examples), yet the output's class set is not a strict subset of the input's:
the two sets are equal. -/
theorem C1_strict_subset_counterexample :
    valid_connection dtypes.FloatD dtypes.FloatD = true ∧
    classStrictSubset dtypes.FloatD.valid_classes dtypes.FloatD.valid_classes
      = false := by
  decide

/-- C1 (amended): a connection from an output port to an input port is valid
only when the output's effective class set is a subset (not necessarily
strict) of the input's effective class set, and the output cannot deliver a
`None` the input does not accept. -/
theorem C1_connection_requires_subset_and_none_safety (out inp : DType)
    (h : valid_connection out inp = true) :
    classSubset out.effective_classes inp.effective_classes = true ∧
    (out.allow_none = true → inp.allow_none = true) := by
  have h' := h
  unfold valid_connection at h'
  rw [Bool.and_eq_true] at h'
  rcases h' with ⟨h1, h2⟩
  refine ⟨h1, ?_⟩
  intro hn
  rw [Bool.or_eq_true] at h2
  rcases h2 with h3 | h3
  · rw [hn] at h3; exact absurd h3 (by decide)
  · exact h3

/-- Closed instance of the C1 amended theorem at concrete dtypes. -/
theorem C1_connection_requires_subset_and_none_safety_witness :
    classSubset (DType.effective_classes dtypes.FloatD)
        (DType.effective_classes ⟨[.pfloat, .pint], false, false⟩) = true ∧
    (dtypes.FloatD.allow_none = true →
      (⟨[.pfloat, .pint], false, false⟩ : DType).allow_none = true) :=
  C1_connection_requires_subset_and_none_safety dtypes.FloatD
    ⟨[.pfloat, .pint], false, false⟩ (by decide)

/-- C3: for ports sharing the same nonempty underlying class set, a valid
connection forces the batch flags to agree; concretely, a batched `float`
output feeds a batched `float` input but not an unbatched one, and an
unbatched `list[float]` output feeds a `float` input exactly when that input
is batched. -/
theorem C3_batch_flags_must_agree :
    (∀ (cs : List PyClass) (n n' b b' : Bool), cs ≠ [] →
        valid_connection ⟨cs, n, b⟩ ⟨cs, n', b'⟩ = true → b = b') ∧
    valid_connection (dtypes.FloatD.withBatched true)
        (dtypes.FloatD.withBatched true) = true ∧
    valid_connection (dtypes.FloatD.withBatched true) dtypes.FloatD = false ∧
    valid_connection dtypes.ListFloatD (dtypes.FloatD.withBatched true) = true ∧
    valid_connection dtypes.ListFloatD dtypes.FloatD = false := by
  refine ⟨?_, by decide, by decide, by decide, by decide⟩
  intro cs n n' b b' hne hv
  unfold valid_connection at hv
  rw [Bool.and_eq_true] at hv
  rcases hv with ⟨h1, _⟩
  cases b <;> cases b' <;> try rfl
  · exfalso
    have : classSubset cs (cs.map .plist) = true := by
      simpa [DType.effective_classes] using h1
    rw [not_classSubset_into_map_plist cs hne] at this
    exact absurd this (by decide)
  · exfalso
    have : classSubset (cs.map .plist) cs = true := by
      simpa [DType.effective_classes] using h1
    rw [not_classSubset_map_plist cs hne] at this
    exact absurd this (by decide)

/-- Closed instance of the C3 theorem at the concrete `float` class set. -/
theorem C3_batch_flags_must_agree_witness :
    ([PyClass.pfloat] ≠ ([] : List PyClass)) ∧ true = true :=
  ⟨by decide,
    C3_batch_flags_must_agree.1 [PyClass.pfloat] false false true true
      (by decide) (by decide)⟩

theorem mem_of_getElem?_eq_some {α : Type} {l : List α} {i : Nat} {a : α}
    (h : l[i]? = some a) : a ∈ l := by
  induction l generalizing i with
  | nil => simp at h
  | cons b t ih =>
    cases i with
    | zero =>
      simp at h
      exact h ▸ List.mem_cons_self _ _
    | succ n => exact List.mem_cons_of_mem _ (ih (by simpa using h))

theorem getElem?_append_of_some {α : Type} {l l' : List α} {i : Nat} {a : α}
    (h : l[i]? = some a) : (l ++ l')[i]? = some a := by
  have hi : i < l.length := by
    by_contra hlt
    rw [List.getElem?_eq_none (le_of_not_lt hlt)] at h
    exact Option.noConfusion h
  rw [List.getElem?_append, if_pos hi]
  exact h

theorem conn_valid_append_out {g : Graph} {d : DType} {c : Nat × Nat}
    (h : g.conn_valid c = true) :
    ({ g with outs := g.outs ++ [d] } : Graph).conn_valid c = true := by
  unfold Graph.conn_valid at h ⊢
  cases ho : g.outs[c.1]? with
  | none => rw [ho] at h; exact absurd h (by simp)
  | some o =>
    cases hi : g.ins[c.2]? with
    | none => rw [ho, hi] at h; exact absurd h (by simp)
    | some i =>
      rw [ho, hi] at h
      have ho' : (g.outs ++ [d])[c.1]? = some o := getElem?_append_of_some ho
      simp only [ho', hi]
      exact h

theorem conn_valid_append_in {g : Graph} {d : DType} {c : Nat × Nat}
    (h : g.conn_valid c = true) :
    ({ g with ins := g.ins ++ [d] } : Graph).conn_valid c = true := by
  unfold Graph.conn_valid at h ⊢
  cases ho : g.outs[c.1]? with
  | none => rw [ho] at h; exact absurd h (by simp)
  | some o =>
    cases hi : g.ins[c.2]? with
    | none => rw [ho, hi] at h; exact absurd h (by simp)
    | some i =>
      rw [ho, hi] at h
      have hi' : (g.ins ++ [d])[c.2]? = some i := getElem?_append_of_some hi
      simp only [ho, hi']
      exact h

theorem Step.preserves_wellTyped {g g' : Graph} (s : Step g g')
    (h : g.wellTyped) : g'.wellTyped := by
  cases s with
  | addOutPort d =>
    intro c hc
    exact conn_valid_append_out (h c hc)
  | addInPort d =>
    intro c hc
    exact conn_valid_append_in (h c hc)
  | connectAttempt i j =>
    unfold Graph.tryConnect
    by_cases hv : g.conn_valid (i, j) = true
    · rw [if_pos hv]
      intro c hc
      have hcv : g.conn_valid c = true := by
        rcases List.mem_cons.mp hc with rfl | hc'
        · exact hv
        · exact h c hc'
      exact hcv
    · rw [if_neg hv]
      exact h
  | removeConn c =>
    intro c' hc'
    exact h c' (List.mem_of_mem_erase hc')

/-- C2: a connection attempt between incompatible (or nonexistent) ports
leaves the graph unchanged, and every graph state reachable from an empty
session contains only connections that pass the type check. -/
theorem C2_incompatible_rejected_and_no_invalid_connection :
    (∀ (g : Graph) (i j : Nat),
        g.conn_valid (i, j) = false → g.tryConnect i j = g) ∧
    (∀ g : Graph, Reachable g → g.wellTyped) := by
  constructor
  · intro g i j h
    unfold Graph.tryConnect
    rw [h]
    simp
  · intro g hr
    induction hr with
    | refl => intro c hc; simp [Graph.empty] at hc
    | tail _ hstep ih => exact hstep.preserves_wellTyped ih

/-- Closed instance of the C2 theorem: the empty session rejects the attempt
to connect nonexistent ports and is well typed. -/
theorem C2_incompatible_rejected_and_no_invalid_connection_witness :
    Graph.empty.tryConnect 0 0 = Graph.empty ∧ Graph.empty.wellTyped :=
  ⟨C2_incompatible_rejected_and_no_invalid_connection.1 Graph.empty 0 0
      (by decide),
    C2_incompatible_rejected_and_no_invalid_connection.2 Graph.empty
      Relation.ReflTransGen.refl⟩

/-- C4: when some input port is batched with a list `xs` and every batched
input has that same length, the node run succeeds, the node function is
applied once per batch element, each output column is a list of `xs.length`
results whose `i`-th entry comes from the `i`-th application, and the batched
port contributes its `i`-th element to the `i`-th application. -/
theorem C4_batched_run_iterates_and_lists_outputs
    (α β : Type) [Inhabited α] [Inhabited β] (f : List α → List β)
    (inps : List (BVal α)) (xs : List α) (k : Nat)
    (hmem : inps[k]? = some (.batch xs))
    (hlen : ∀ m ∈ batchLengths inps, m = xs.length) :
    runNode f inps = some (runBatched f inps xs.length) ∧
    (runBatched f inps xs.length).length = xs.length ∧
    (∀ j, (outputColumn (runBatched f inps xs.length) j).length = xs.length) ∧
    (∀ j i, i < xs.length →
        (outputColumn (runBatched f inps xs.length) j)[i]? =
          some ((f (sliceInputs inps i)).getD j default)) ∧
    (∀ i, i < xs.length →
        (sliceInputs inps i)[k]? = some (xs.getD i default)) := by
  have hxmem : xs.length ∈ batchLengths inps := by
    apply List.mem_filterMap.mpr
    exact ⟨.batch xs, mem_of_getElem?_eq_some hmem, rfl⟩
  have hrows : ∀ i, i < xs.length →
      (runBatched f inps xs.length)[i]? = some (f (sliceInputs inps i)) := by
    intro i hi
    unfold runBatched
    rw [List.getElem?_map, List.getElem?_range hi]
    rfl
  refine ⟨?_, ?_, ?_, ?_, ?_⟩
  · unfold runNode
    cases hbl : batchLengths inps with
    | nil => rw [hbl] at hxmem; simp at hxmem
    | cons n rest =>
      have hn : n = xs.length := hlen n (by rw [hbl]; exact List.mem_cons_self _ _)
      have hall : rest.all (fun m => m == n) = true := by
        apply List.all_eq_true.mpr
        intro m hm
        have := hlen m (by rw [hbl]; exact List.mem_cons_of_mem _ hm)
        simp [this, hn]
      show (if (rest.all fun m => m == n) = true then some (runBatched f inps n)
          else none) = some (runBatched f inps xs.length)
      rw [if_pos hall, hn]
  · unfold runBatched
    simp
  · intro j
    unfold outputColumn runBatched
    simp
  · intro j i hi
    unfold outputColumn
    rw [List.getElem?_map, hrows i hi]
    rfl
  · intro i hi
    unfold sliceInputs
    rw [List.getElem?_map, hmem]
    rfl

/-- Closed instance of the C4 theorem: batching a three-element list runs the
node once per element. -/
theorem C4_batched_run_iterates_and_lists_outputs_witness :
    runNode sumNode [BVal.batch [1, 2, 3]] =
      some (runBatched sumNode [BVal.batch [1, 2, 3]] 3) :=
  (C4_batched_run_iterates_and_lists_outputs Nat Nat sumNode
      [BVal.batch [1, 2, 3]] [1, 2, 3] 0 rfl
      (by
        intro m hm
        rw [show batchLengths [BVal.batch [1, 2, 3]] = [3] from rfl] at hm
        simpa using hm)).1

/-- C10: a node run is defined exactly when all batched input lists share the
same length, and an input-port value is always either a single value or a 1D
list. -/
theorem C10_batching_requires_equal_lengths
    (α β : Type) [Inhabited α] (f : List α → List β)
    (inps : List (BVal α)) :
    ((runNode f inps).isSome = allSameLength (batchLengths inps)) ∧
    (∀ v : BVal α, (∃ a, v = .single a) ∨ (∃ ys, v = .batch ys)) := by
  constructor
  · unfold runNode allSameLength
    cases hbl : batchLengths inps with
    | nil => rfl
    | cons n rest =>
      show (if (rest.all fun m => m == n) = true then some (runBatched f inps n)
          else none).isSome = rest.all fun m => m == n
      by_cases hall : rest.all (fun m => m == n) = true
      · rw [if_pos hall, hall]
        rfl
      · rw [if_neg hall, Bool.eq_false_iff.mpr hall]
        rfl
  · intro v
    cases v with
    | single a => exact Or.inl ⟨a, rfl⟩
    | batch ys => exact Or.inr ⟨ys, rfl⟩

/-- C6: a port is green exactly when its current value is valid and red
exactly when it is not; moreover a port can be red even while a connection to
it is permitted by the data types — validity is judged on the value. -/
theorem C6_port_color_reflects_current_value :
    (∀ p : Port,
      (p.color = .green ↔ p.value_ok = true) ∧
      (p.color = .red ↔ p.value_ok = false)) ∧
    (valid_connection dtypes.FloatD dtypes.FloatD = true ∧
      (Port.mk dtypes.FloatD [] [] none).color = .red) := by
  constructor
  · intro p
    unfold Port.color
    by_cases h : p.value_ok = true
    · rw [if_pos h, h]
      exact ⟨by simp, by simp⟩
    · rw [if_neg h, Bool.eq_false_iff.mpr h]
      refine ⟨⟨fun hc => absurd hc (by decide), fun hc => absurd hc (by decide)⟩,
        ⟨fun _ => rfl, fun _ => rfl⟩⟩
  · exact ⟨by decide, by decide⟩

/-- C9: after an input change a `DataNode` sets its outputs to the
`node_function` results exactly when all inputs report valid values, and
otherwise clears every output port to `None`. -/
theorem C9_dataNode_update_or_clear
    (node_function : List DPort → List PyVal) (inps : List DPort)
    (nOut : Nat) :
    (allInputsValid inps = true →
      dataNodeUpdate node_function inps nOut = (node_function inps).map some) ∧
    (allInputsValid inps = false →
      dataNodeUpdate node_function inps nOut = List.replicate nOut none ∧
      ∀ o ∈ dataNodeUpdate node_function inps nOut, o = none) := by
  constructor
  · intro h
    unfold dataNodeUpdate
    rw [if_pos h]
  · intro h
    unfold dataNodeUpdate
    rw [if_neg (by rw [h]; exact Bool.false_ne_true)]
    refine ⟨rfl, ?_⟩
    intro o ho
    exact List.eq_of_mem_replicate ho

/-- Closed instance of the C9 theorem at a valid and an invalid input. -/
theorem C9_dataNode_update_or_clear_witness :
    dataNodeUpdate constIntNF [⟨dtypes.FloatD, some (.scalar (.sfloat 0))⟩] 1 =
      (constIntNF [⟨dtypes.FloatD, some (.scalar (.sfloat 0))⟩]).map some ∧
    dataNodeUpdate constIntNF [⟨dtypes.FloatD, none⟩] 1 =
      List.replicate 1 none :=
  ⟨(C9_dataNode_update_or_clear constIntNF
      [⟨dtypes.FloatD, some (.scalar (.sfloat 0))⟩] 1).1 (by decide),
    ((C9_dataNode_update_or_clear constIntNF
      [⟨dtypes.FloatD, none⟩] 1).2 (by decide)).1⟩

/-- C8: module/file registration keeps a class iff it inherits from `Node`
and its name ends in `_Node` — so a `Node`-derived template without the
suffix is skipped — while list registration keeps everything. -/
theorem C8_registration_name_filter (classes : List NodeClass) (c : NodeClass) :
    (c ∈ register_from_source classes ↔
      c ∈ classes ∧ c.inherits_node = true ∧
        nameEndsWith c.name "_Node" = true) ∧
    register_from_list classes = classes ∧
    register_from_source
        [⟨"My_Node", true⟩, ⟨"NodeTemplate", true⟩, ⟨"Other_Node", false⟩] =
      [⟨"My_Node", true⟩] := by
  refine ⟨?_, rfl, by decide⟩
  unfold register_from_source
  rw [List.mem_filter]
  simp [Bool.and_eq_true, and_assoc]

theorem decodeScalar_encodeScalar (s : PyScalar) :
    decodeScalar (encodeScalar s) = some s := by
  cases s with
  | sfloat t => rfl
  | sint n => rfl
  | sbool b => cases b <;> simp [encodeScalar, decodeScalar]
  | sstr s => rfl

theorem decodeScalarList_map_encode (xs : List PyScalar) :
    decodeScalarList (xs.map encodeScalar) = some xs := by
  induction xs with
  | nil => rfl
  | cons a t ih => simp [decodeScalarList, decodeScalar_encodeScalar, ih]

theorem decodeVal_encodeVal (v : PyVal) : decodeVal (encodeVal v) = some v := by
  cases v with
  | scalar s => simp [encodeVal, decodeVal, decodeScalar_encodeScalar]
  | list1d xs => simp [encodeVal, decodeVal, decodeScalarList_map_encode]

theorem decodeOptVal_encodeOptVal (v : Option PyVal) :
    decodeOptVal (encodeOptVal v) = some v := by
  cases v with
  | none => rfl
  | some v =>
    cases v with
    | scalar s =>
      simp [encodeOptVal, encodeVal, decodeOptVal, decodeVal,
        decodeScalar_encodeScalar]
    | list1d xs =>
      simp [encodeOptVal, encodeVal, decodeOptVal, decodeVal,
        decodeScalarList_map_encode]

theorem decodeOptValList_map_encode (vs : List (Option PyVal)) :
    decodeOptValList (vs.map encodeOptVal) = some vs := by
  induction vs with
  | nil => rfl
  | cons a t ih => simp [decodeOptValList, decodeOptVal_encodeOptVal, ih]

theorem decodeNode_encodeNode (n : SessionNode) :
    decodeNode (encodeNode n) = some n := by
  cases n with
  | mk t x y vs => simp [encodeNode, decodeNode, decodeOptValList_map_encode]

theorem decodeNodeList_map_encode (ns : List SessionNode) :
    decodeNodeList (ns.map encodeNode) = some ns := by
  induction ns with
  | nil => rfl
  | cons a t ih => simp [decodeNodeList, decodeNode_encodeNode, ih]

theorem decodeConn_encodeConn (c : Nat × Nat) :
    decodeConn (encodeConn c) = some c := by
  cases c with
  | mk a b => simp [encodeConn, decodeConn]

theorem decodeConnList_map_encode (cs : List (Nat × Nat)) :
    decodeConnList (cs.map encodeConn) = some cs := by
  induction cs with
  | nil => rfl
  | cons a t ih => simp [decodeConnList, decodeConn_encodeConn, ih]

theorem loadSession_saveSession (s : Session) :
    loadSession (saveSession s) = some s := by
  cases s with
  | mk ns cs =>
    simp [saveSession, loadSession, decodeNodeList_map_encode,
      decodeConnList_map_encode]

/-- C7: saving a session produces a JSON document from which loading
reproduces the session exactly (layout and values), and instantiating the
GUI with a title for which a saved document is present loads that session. -/
theorem C7_save_load_roundtrip (s : Session) (title : String)
    (store : List (String × Json)) :
    loadSession (saveSession s) = some s ∧
    gui_init ((title, saveSession s) :: store) title = some s := by
  refine ⟨loadSession_saveSession s, ?_⟩
  unfold gui_init
  simp [List.lookup, loadSession_saveSession]

theorem reachesFuel_mono_fuel {edges : List (Nat × Nat)} {f a b : Nat}
    (h : reachesFuel edges f a b = true) :
    reachesFuel edges (f + 1) a b = true := by
  induction f generalizing a with
  | zero =>
    unfold reachesFuel at h ⊢
    rw [Bool.or_eq_true]
    exact Or.inl h
  | succ f ih =>
    unfold reachesFuel at h ⊢
    rw [Bool.or_eq_true] at h ⊢
    rcases h with hab | hany
    · exact Or.inl hab
    · refine Or.inr ?_
      obtain ⟨e, he, hpe⟩ := List.any_eq_true.mp hany
      rw [Bool.and_eq_true] at hpe
      exact List.any_eq_true.mpr
        ⟨e, he, by rw [Bool.and_eq_true]; exact ⟨hpe.1, ih hpe.2⟩⟩

theorem reachesFuel_mono_edges {edges : List (Nat × Nat)} {e' : Nat × Nat}
    {f a b : Nat} (h : reachesFuel edges f a b = true) :
    reachesFuel (e' :: edges) f a b = true := by
  induction f generalizing a with
  | zero => exact h
  | succ f ih =>
    unfold reachesFuel at h ⊢
    rw [Bool.or_eq_true] at h ⊢
    rcases h with hab | hany
    · exact Or.inl hab
    · refine Or.inr ?_
      obtain ⟨e, he, hpe⟩ := List.any_eq_true.mp hany
      rw [Bool.and_eq_true] at hpe
      exact List.any_eq_true.mpr
        ⟨e, List.mem_cons_of_mem _ he,
          by rw [Bool.and_eq_true]; exact ⟨hpe.1, ih hpe.2⟩⟩

theorem downstream_addEdge_mono {g : OGraph} {e : Nat × Nat} {a b : Nat}
    (h : g.downstream a b = true) : (g.addEdge e).downstream a b = true := by
  unfold OGraph.downstream at h ⊢
  have h1 : reachesFuel (e :: g.edges) g.edges.length a b = true :=
    reachesFuel_mono_edges h
  have h2 := reachesFuel_mono_fuel h1
  simpa [OGraph.addEdge] using h2

theorem mem_fold_demands_iff (g : OGraph) (a : Nat) (r : String)
    (l : List Nat) :
    (r ∈ l.foldr
        (fun b acc =>
          if g.downstream a b then (g.nodes.getD b ONode.idle).demands ++ acc
          else acc)
        []) ↔
      ∃ b ∈ l, g.downstream a b = true ∧
        r ∈ (g.nodes.getD b ONode.idle).demands := by
  induction l with
  | nil => simp
  | cons x t ih =>
    by_cases hx : g.downstream a x = true
    · simp only [List.foldr_cons, if_pos hx, List.mem_append, ih]
      constructor
      · rintro (hr | ⟨b, hb, hd, hr⟩)
        · exact ⟨x, List.mem_cons_self _ _, hx, hr⟩
        · exact ⟨b, List.mem_cons_of_mem _ hb, hd, hr⟩
      · rintro ⟨b, hb, hd, hr⟩
        rcases List.mem_cons.mp hb with rfl | hb
        · exact Or.inl hr
        · exact Or.inr ⟨b, hb, hd, hr⟩
    · simp only [List.foldr_cons, if_neg hx, ih]
      constructor
      · rintro ⟨b, hb, hd, hr⟩
        exact ⟨b, List.mem_cons_of_mem _ hb, hd, hr⟩
      · rintro ⟨b, hb, hd, hr⟩
        rcases List.mem_cons.mp hb with rfl | hb
        · exact absurd hd hx
        · exact ⟨b, hb, hd, hr⟩

theorem requirements_addEdge_mono {g : OGraph} {e : Nat × Nat} {a : Nat}
    {r : String} (h : r ∈ g.requirements a) :
    r ∈ (g.addEdge e).requirements a := by
  unfold OGraph.requirements at h ⊢
  obtain ⟨b, hb, hd, hr⟩ := (mem_fold_demands_iff g a r _).mp h
  refine (mem_fold_demands_iff (g.addEdge e) a r _).mpr ?_
  exact ⟨b, by simpa [OGraph.addEdge] using hb, downstream_addEdge_mono hd,
    by simpa [OGraph.addEdge] using hr⟩

theorem satisfiesReqs_anti {provided reqs reqs' : List String}
    (hsub : ∀ r ∈ reqs, r ∈ reqs')
    (h : satisfiesReqs provided reqs' = true) :
    satisfiesReqs provided reqs = true := by
  unfold satisfiesReqs at h ⊢
  apply List.all_eq_true.mpr
  intro r hr
  exact List.all_eq_true.mp h r (hsub r hr)

/-- C5: adding a connection can only shrink the recommendation set of an
upstream otyped port, removing that connection restores the previous set,
and when no source can satisfy the combined transitive requirements reaching
the port, the port is shown red. -/
theorem C5_recommendations_shrink_and_restore (g : OGraph) (e : Nat × Nat)
    (a : Nat) :
    (∀ s ∈ (g.addEdge e).recommended a, s ∈ g.recommended a) ∧
    ((g.addEdge e).removeEdge e).recommended a = g.recommended a ∧
    ((∀ s ∈ List.range g.nodes.length,
        satisfiesReqs (g.nodes.getD s ONode.idle).provides
          (g.requirements a) = false) →
      g.portColor a = .red) := by
  refine ⟨?_, ?_, ?_⟩
  · intro s hs
    unfold OGraph.recommended at hs ⊢
    have hmem := (List.mem_filter.mp hs).1
    have hsat := (List.mem_filter.mp hs).2
    apply List.mem_filter.mpr
    refine ⟨by simpa [OGraph.addEdge] using hmem, ?_⟩
    have hsat' : satisfiesReqs
        ((g.addEdge e).nodes.getD s ONode.idle).provides
        ((g.addEdge e).requirements a) = true := hsat
    have := satisfiesReqs_anti (fun r hr => requirements_addEdge_mono hr) hsat'
    simpa [OGraph.addEdge] using this
  · have : (g.addEdge e).removeEdge e = g := by
      unfold OGraph.addEdge OGraph.removeEdge
      simp
    rw [this]
  · intro hnone
    unfold OGraph.portColor
    have hrec : g.recommended a = [] := by
      unfold OGraph.recommended
      apply List.filter_eq_nil_iff.mpr
      intro s hs
      rw [hnone s hs]
      exact Bool.false_ne_true
    rw [hrec]
    rfl

/-- Closed instance of the C5 theorem: a single node demanding `bulk` that no
source can satisfy shows red. -/
theorem C5_recommendations_shrink_and_restore_witness :
    (OGraph.mk [ONode.mk [] ["bulk"]] []).portColor 0 = Color.red :=
  (C5_recommendations_shrink_and_restore (OGraph.mk [ONode.mk [] ["bulk"]] [])
      (0, 0) 0).2.2 (by decide)

end Ironflow
